import Mathlib

/-!
Shallow embedding of the `obs-subtitle` rendering module (`src/ass.rs`).

The destination texture is modelled as a byte buffer `Nat → Nat` together
with its width; external collaborators (the libass rasterization engine,
file IO and the subparse container parser) are modelled as oracle inputs
to the functions that consume them.  Machine integers are modelled as
`Nat`/`Int` with explicit reductions modulo `2^16` / `2^8` / `2^64` at the
places the Rust code performs `u16`/`u8` arithmetic or `i64` wrapping.
-/

namespace ObsSubtitle

/-- One byte of the SIMD blend in `draw_layer`:
`result = u8(u16(cd) * u16(255 - k) + u16(cs) * u16(k)) / 255)`.
The `u16` multiplications and the addition wrap modulo `2^16`; the final
cast to `u8` truncates modulo `2^8`. -/
def blendByte (cd cs k : Nat) : Nat :=
  ((cd * (255 - k) % 65536 + cs * k % 65536) % 65536 / 255) % 256

/-- A rasterized layer returned by the engine (`libass::Layer`): a
rectangle, a packed big-endian RGBA color (`u32`) and a coverage bitmap,
one byte per pixel in row-major order.  The bitmap is modelled as a
function from index to byte. -/
structure Layer where
  x : Nat
  y : Nat
  width : Nat
  height : Nat
  color : Nat
  bitmap : Nat → Nat

/-- The mapped destination texture: a width and a flat byte buffer. -/
structure MappedTexture where
  width : Nat
  data : Nat → Nat

/-- The color byte vector used by `draw_layer`: `color.to_be_bytes()` with
the alpha byte (index 3) inverted (`color[3] = 255 - color[3]`). -/
def drawColor (l : Layer) : Nat → Nat := fun c =>
  if c = 0 then l.color / 2 ^ 24 % 256
  else if c = 1 then l.color / 2 ^ 16 % 256
  else if c = 2 then l.color / 2 ^ 8 % 256
  else 255 - l.color % 256

/-- One iteration of the `chunks_exact_mut(4).zip(src_slice)` loop: blend
the four bytes at offsets `off .. off+3` with the color vector, using the
coverage byte `k`. -/
def drawPixel (color : Nat → Nat) (k off : Nat) (tex : Nat → Nat) : Nat → Nat :=
  fun j => if off ≤ j ∧ j < off + 4 then blendByte (tex j) (color (j - off)) k else tex j

/-- The per-row loop of `draw_layer`, drawing `rem` pixels starting at
column `i`: the coverage byte of column `j` is `bm (layerYOff + j)` and
its destination chunk starts at byte `dstYOff + 4 * j`. -/
def drawRowFrom (color bm : Nat → Nat) (layerYOff dstYOff : Nat) :
    Nat → Nat → (Nat → Nat) → Nat → Nat
  | _, 0, tex => tex
  | i, rem + 1, tex =>
      drawRowFrom color bm layerYOff dstYOff (i + 1) rem
        (drawPixel color (bm (layerYOff + i)) (dstYOff + 4 * i) tex)

/-- The row loop of `draw_layer`: draw the first `n` rows (row `y` writes
at `dst_y_off = ((y + l.y) * dst_w + l.x) * 4` reading coverage from
`layer_y_off = y * l.width`). -/
def drawRows (l : Layer) (dst_w : Nat) (tex : Nat → Nat) : Nat → Nat → Nat
  | 0 => tex
  | y + 1 =>
      drawRowFrom (drawColor l) l.bitmap (y * l.width) (((y + l.y) * dst_w + l.x) * 4)
        0 l.width (drawRows l dst_w tex y)

/-- `draw_layer` from `src/ass.rs`: alpha-blend the layer onto the
texture, one row at a time. -/
def draw_layer (l : Layer) (dst_w : Nat) (tex : MappedTexture) : MappedTexture :=
  ⟨tex.width, drawRows l dst_w tex.data l.height⟩

/-- The rectangle remembered for the next clear (`struct LastLayer`). -/
structure LastLayer where
  width : Nat
  height : Nat
  x : Nat
  y : Nat
deriving DecidableEq

/-- `LastLayer::from_layer`. -/
def LastLayer.from_layer (l : Layer) : LastLayer :=
  ⟨l.width, l.height, l.x, l.y⟩

/-- `dst_slice.fill(0)` on the byte range `[off, off + len)`. -/
def fillZero (off len : Nat) (tex : Nat → Nat) : Nat → Nat :=
  fun j => if off ≤ j ∧ j < off + len then 0 else tex j

/-- The row loop of `clear_last` for one recorded layer: zero the first
`n` rows of its rectangle. -/
def clearRows (ll : LastLayer) (tex_w : Nat) (tex : Nat → Nat) : Nat → Nat → Nat
  | 0 => tex
  | n + 1 =>
      fillZero (((ll.y + n) * tex_w + ll.x) * 4) (ll.width * 4)
        (clearRows ll tex_w tex n)

/-- Zero the whole rectangle of one recorded layer. -/
def clearLayer (ll : LastLayer) (tex_w : Nat) (tex : Nat → Nat) : Nat → Nat :=
  clearRows ll tex_w tex ll.height

/-- `clear_last` from `src/ass.rs`: zero-fill every recorded rectangle,
in order, using the texture width for the row stride. -/
def clear_last (image : List LastLayer) (tex : MappedTexture) : MappedTexture :=
  ⟨tex.width, image.foldl (fun t ll => clearLayer ll tex.width t) tex.data⟩

/-- The tri-state change flag returned by `renderer.render_frame`
(`libass::Change`); the rendering code only distinguishes `None` from the
rest. -/
inductive Change
  | None
  | Content
  | Position
deriving DecidableEq

/-- The result of `renderer.render_frame(track, cur_time)`: an optional
ordered sequence of layers plus the change flag.  The engine is external,
so its output is an oracle input to `render`. -/
structure EngineResult where
  image : Option (List Layer)
  change : Change

/-- `struct LoadedTrack`: an engine track handle (opaque, modelled as a
`Nat` identifier) plus the computed length in milliseconds (`i64`). -/
structure LoadedTrack where
  track : Nat
  len : Int
deriving DecidableEq

/-- The state of `AssData` relevant to the claims: the track slot, the
`i64` time cursor and the recorded rectangles of the previous paint.  The
engine library and renderer handles are external resources and carry no
state observable by the claims. -/
structure AssData where
  track : Option LoadedTrack
  cur_time : Int
  last_image : List LastLayer

/-- `AssData::new()`: empty track slot, cursor at 0, no recorded layers. -/
def AssData.new : AssData :=
  ⟨none, 0, []⟩

/-- `i64::overflowing_add` result: wrap into `[-2^63, 2^63)`. -/
def wrap64 (x : Int) : Int :=
  (x + 2 ^ 63) % 2 ^ 64 - 2 ^ 63

/-- `AssData::render`: if the engine reports no change, return without
touching anything; otherwise clear the previously recorded rectangles,
reset the recorded list, then draw each returned layer (with
`dst_w = 1920`) and record its rectangle. -/
def render (st : AssData) (tex : MappedTexture) (engine : EngineResult) :
    AssData × MappedTexture :=
  if engine.change = Change.None then (st, tex)
  else
    match engine.image with
    | Option.none => ({ st with last_image := [] }, clear_last st.last_image tex)
    | Option.some layers =>
        ({ st with last_image := layers.map LastLayer.from_layer },
         layers.foldl (fun t l => draw_layer l 1920 t) (clear_last st.last_image tex))

/-- `AssData::tick`: no-op when no track is loaded; otherwise advance the
cursor with wrapping `i64` addition and render. -/
def tick (st : AssData) (msecs : Int) (tex : MappedTexture) (engine : EngineResult) :
    AssData × MappedTexture :=
  match st.track with
  | Option.none => (st, tex)
  | Option.some _ => render { st with cur_time := wrap64 (st.cur_time + msecs) } tex engine

/-- The error kinds of a track load: `fs::read` failure, subtitle parse
failure, and failure of `new_track_from_memory`. -/
inductive LoadError
  | IoFailure
  | ParseFailure
  | EngineFailure
deriving DecidableEq

/-- One comparison step of Rust `Iterator::max_by_key`: keep the running
maximum, the later element winning ties. -/
def max_step (acc : Option Int) (e : Int) : Option Int :=
  match acc with
  | Option.none => Option.some e
  | Option.some m => if m > e then Option.some m else Option.some e

/-- Rust `Iterator::max_by_key` on the end timestamps, as a fold. -/
def max_end (ends : List Int) : Option Int :=
  ends.foldl max_step Option.none

/-- `AssData::load_file`, after the external read and parse: the length is
the maximal end timestamp in milliseconds of the parsed entries,
defaulting to 0 (`len.unwrap_or(0)`).  The oracle input `file` is the
outcome of `fs::read` + `SsaFile::parse` + `get_subtitle_entries`: either
an error or the list of entry end timestamps. -/
def load_file (file : Except LoadError (List Int)) : Except LoadError Int :=
  match file with
  | Except.error e => Except.error e
  | Except.ok ends => Except.ok ((max_end ends).getD 0)

/-- `AssData::load_track`: propagate a `load_file` error; propagate an
engine failure of `new_track_from_memory` (oracle input `etr`); on
success install the new track and reset the cursor to 0. -/
def load_track (st : AssData) (file : Except LoadError (List Int)) (etr : Option Nat) :
    Except LoadError AssData :=
  match load_file file with
  | Except.error e => Except.error e
  | Except.ok track_len =>
      match etr with
      | Option.none => Except.error LoadError.EngineFailure
      | Option.some tr =>
          Except.ok { st with track := Option.some ⟨tr, track_len⟩, cur_time := 0 }

/-- The state of `self` after a `load_track` call: the new state on
success, the old state unchanged when an error was returned (the `?`
operators return before any field of `self` is written). -/
def load_track_state (st : AssData) (file : Except LoadError (List Int)) (etr : Option Nat) :
    AssData :=
  match load_track st file etr with
  | Except.ok st2 => st2
  | Except.error _ => st

/-- `AssData::current_len`. -/
def current_len (st : AssData) : Int :=
  ((st.track.map LoadedTrack.len).getD 0)

/-- `AssData::current_time`. -/
def current_time (st : AssData) : Int :=
  st.cur_time

/-- `AssData::ended`: `cur_time >= current_len`. -/
def ended (st : AssData) : Bool :=
  decide (current_len st ≤ st.cur_time)

/-- `AssData::loaded`. -/
def loaded (st : AssData) : Bool :=
  st.track.isSome

/-- One externally reachable operation on an `AssData` value: a `tick`
(with arbitrary delta, texture and engine output) or a `load_track` (with
arbitrary oracle outcomes). -/
inductive Step : AssData → AssData → Prop
  | tick (st : AssData) (m : Int) (tex : MappedTexture) (engine : EngineResult) :
      Step st (tick st m tex engine).1
  | load (st : AssData) (file : Except LoadError (List Int)) (etr : Option Nat) :
      Step st (load_track_state st file etr)

/-- States reachable from `AssData::new()` by the external operations. -/
inductive Reachable : AssData → Prop
  | init : Reachable AssData.new
  | step {st st2 : AssData} : Reachable st → Step st st2 → Reachable st2

/-- A concrete 1x1 layer for concrete evaluations: packed color
`0x11223344`, full coverage everywhere. -/
def cLayer : Layer :=
  ⟨0, 0, 1, 1, 287454020, fun _ => 255⟩

/-- A concrete all-zero texture of width 1920. -/
def cTex : MappedTexture :=
  ⟨1920, fun _ => 0⟩

/-- A concrete state with a loaded track of length 1000 ms and cursor 5. -/
def cTrackState : AssData :=
  ⟨Option.some ⟨0, 1000⟩, 5, []⟩

/-- A concrete state with a loaded track, cursor 0 and one recorded
1x1 rectangle at the origin. -/
def cStClear : AssData :=
  ⟨Option.some ⟨0, 1000⟩, 0, [⟨1, 1, 0, 0⟩]⟩

/-- A concrete engine answer reporting no change. -/
def cEngineNone : EngineResult :=
  ⟨Option.none, Change.None⟩

/-- A concrete engine answer reporting changed content with one layer. -/
def cEngineChanged : EngineResult :=
  ⟨Option.some [cLayer], Change.Content⟩

/-- The `u16` arithmetic of the blend never overflows when all inputs are
bytes, so `blendByte` computes the pure rational-free law
`(cd * (255 - k) + cs * k) / 255`. -/
theorem blendByte_eq (cd cs k : Nat) (hcd : cd ≤ 255) (hcs : cs ≤ 255) (hk : k ≤ 255) :
    blendByte cd cs k = (cd * (255 - k) + cs * k) / 255 := by
  have h1 : cd * (255 - k) ≤ 255 * (255 - k) := Nat.mul_le_mul_right _ hcd
  have h2 : cs * k ≤ 255 * k := Nat.mul_le_mul_right _ hcs
  have hsum : cd * (255 - k) + cs * k ≤ 65025 := by omega
  have hdiv : (cd * (255 - k) + cs * k) / 255 < 256 := by
    apply Nat.div_lt_of_lt_mul
    omega
  unfold blendByte
  rw [Nat.mod_eq_of_lt (show cd * (255 - k) < 65536 by omega),
    Nat.mod_eq_of_lt (show cs * k < 65536 by omega),
    Nat.mod_eq_of_lt (show cd * (255 - k) + cs * k < 65536 by omega),
    Nat.mod_eq_of_lt hdiv]

/-- Coverage 0 leaves the destination byte unchanged. -/
theorem blendByte_zero (cd cs : Nat) (hcd : cd ≤ 255) (hcs : cs ≤ 255) :
    blendByte cd cs 0 = cd := by
  rw [blendByte_eq cd cs 0 hcd hcs (by omega)]
  simp

/-- Coverage 255 replaces the destination byte with the source byte. -/
theorem blendByte_full (cd cs : Nat) (hcd : cd ≤ 255) (hcs : cs ≤ 255) :
    blendByte cd cs 255 = cs := by
  rw [blendByte_eq cd cs 255 hcd hcs (by omega)]
  simp

/-- Every byte of the (alpha-inverted) color vector is a byte. -/
theorem drawColor_le (l : Layer) (c : Nat) : drawColor l c ≤ 255 := by
  unfold drawColor
  have h1 : l.color / 2 ^ 24 % 256 < 256 := Nat.mod_lt _ (by norm_num)
  have h2 : l.color / 2 ^ 16 % 256 < 256 := Nat.mod_lt _ (by norm_num)
  have h3 : l.color / 2 ^ 8 % 256 < 256 := Nat.mod_lt _ (by norm_num)
  split_ifs <;> omega

/-- `drawPixel` does not touch bytes outside its 4-byte chunk. -/
theorem drawPixel_out (color : Nat → Nat) (k off : Nat) (tex : Nat → Nat) (p : Nat)
    (h : p < off ∨ off + 4 ≤ p) : drawPixel color k off tex p = tex p := by
  unfold drawPixel
  rw [if_neg (by omega)]

/-- `drawPixel` blends byte `c` of its chunk with color channel `c`. -/
theorem drawPixel_at (color : Nat → Nat) (k off c : Nat) (tex : Nat → Nat) (hc : c < 4) :
    drawPixel color k off tex (off + c) = blendByte (tex (off + c)) (color c) k := by
  unfold drawPixel
  rw [if_pos (by omega), Nat.add_sub_cancel_left]

/-- The row loop does not touch bytes outside the chunks it writes. -/
theorem drawRowFrom_out (color bm : Nat → Nat) (lOff dOff : Nat) (rem : Nat) :
    ∀ i tex p, (p < dOff + 4 * i ∨ dOff + 4 * (i + rem) ≤ p) →
      drawRowFrom color bm lOff dOff i rem tex p = tex p := by
  induction rem with
  | zero => intro i tex p _; rfl
  | succ n ih =>
      intro i tex p h
      simp only [drawRowFrom]
      rw [ih (i + 1) _ p (by omega)]
      exact drawPixel_out _ _ _ _ _ (by omega)

/-- The row loop blends byte `c` of column `j` with coverage
`bm (lOff + j)`, reading the destination byte as it was before the row
loop started. -/
theorem drawRowFrom_at (color bm : Nat → Nat) (lOff dOff : Nat) (rem : Nat) :
    ∀ i tex j c, i ≤ j → j < i + rem → c < 4 →
      drawRowFrom color bm lOff dOff i rem tex (dOff + 4 * j + c)
        = blendByte (tex (dOff + 4 * j + c)) (color c) (bm (lOff + j)) := by
  induction rem with
  | zero => intro i tex j c h1 h2 _; omega
  | succ n ih =>
      intro i tex j c h1 h2 hc
      simp only [drawRowFrom]
      by_cases hj : j = i
      · subst hj
        rw [drawRowFrom_out color bm lOff dOff n (j + 1) _ _ (by omega)]
        exact drawPixel_at _ _ _ _ _ hc
      · rw [ih (i + 1) _ j c (by omega) (by omega) hc]
        rw [drawPixel_out _ _ _ _ _ (by omega)]

/-- When the rectangle fits in the row stride, the byte ranges of
distinct rows are disjoint: the range of row `r1` ends no later than the
range of row `r2` starts. -/
theorem base_mono (W lx w : Nat) (hW : lx + w ≤ W) (r1 r2 : Nat) (h : r1 < r2) :
    (r1 * W + lx) * 4 + 4 * w ≤ (r2 * W + lx) * 4 := by
  have h1 : (r1 + 1) * W ≤ r2 * W := Nat.mul_le_mul_right _ (by omega)
  have h2 : (r1 + 1) * W = r1 * W + W := by ring
  omega

/-- `drawRows` does not touch a byte lying outside every drawn row. -/
theorem drawRows_out (l : Layer) (W : Nat) (tex : Nat → Nat) :
    ∀ n p,
      (∀ y, y < n →
        p < ((y + l.y) * W + l.x) * 4 ∨ ((y + l.y) * W + l.x) * 4 + 4 * l.width ≤ p) →
      drawRows l W tex n p = tex p := by
  intro n
  induction n with
  | zero => intro p _; rfl
  | succ m ih =>
      intro p h
      simp only [drawRows]
      rw [drawRowFrom_out _ _ _ _ _ 0 _ p ?side]
      · exact ih p fun y hy => h y (by omega)
      case side =>
        have := h m (by omega)
        omega

/-- Byte `c` of pixel `(i, y)` of the layer, after all rows are drawn,
is the blend of the original destination byte with color channel `c`
under coverage `bitmap (y * width + i)`. -/
theorem drawRows_at (l : Layer) (W : Nat) (tex : Nat → Nat) (hW : l.x + l.width ≤ W) :
    ∀ n y i c, y < n → i < l.width → c < 4 →
      drawRows l W tex n (((y + l.y) * W + l.x) * 4 + 4 * i + c)
        = blendByte (tex (((y + l.y) * W + l.x) * 4 + 4 * i + c)) (drawColor l c)
            (l.bitmap (y * l.width + i)) := by
  intro n
  induction n with
  | zero => intro y i c hy _ _; omega
  | succ m ih =>
      intro y i c hy hi hc
      simp only [drawRows]
      by_cases hym : y = m
      · subst hym
        rw [drawRowFrom_at _ _ _ _ _ 0 _ i c (by omega) (by omega) hc]
        rw [drawRows_out l W tex y _ ?earlier]
        case earlier =>
          intro y2 hy2
          have := base_mono W l.x l.width hW (y2 + l.y) (y + l.y) (by omega)
          omega
      · have hylt : y < m := by omega
        rw [drawRowFrom_out _ _ _ _ _ 0 _ _ ?other]
        · exact ih y i c hylt hi hc
        case other =>
          have := base_mono W l.x l.width hW (y + l.y) (m + l.y) (by omega)
          omega

/-- A `fill(0)` writes 0 or leaves a byte alone. -/
theorem fillZero_cases (off len : Nat) (tex : Nat → Nat) (p : Nat) :
    fillZero off len tex p = 0 ∨ fillZero off len tex p = tex p := by
  unfold fillZero
  split
  · exact Or.inl rfl
  · exact Or.inr rfl

/-- `clearRows` writes 0 or leaves a byte alone. -/
theorem clearRows_cases (ll : LastLayer) (W : Nat) (tex : Nat → Nat) :
    ∀ n p, clearRows ll W tex n p = 0 ∨ clearRows ll W tex n p = tex p := by
  intro n
  induction n with
  | zero => intro p; exact Or.inr rfl
  | succ m ih =>
      intro p
      simp only [clearRows]
      rcases fillZero_cases (((ll.y + m) * W + ll.x) * 4) (ll.width * 4)
          (clearRows ll W tex m) p with h | h
      · exact Or.inl h
      · rw [h]; exact ih p

/-- Every byte inside the rectangle of a recorded layer is zero after its
rows are cleared. -/
theorem clearRows_in (ll : LastLayer) (W : Nat) (tex : Nat → Nat) :
    ∀ n y i c, y < n → i < ll.width → c < 4 →
      clearRows ll W tex n (((ll.y + y) * W + ll.x) * 4 + 4 * i + c) = 0 := by
  intro n
  induction n with
  | zero => intro y i c hy _ _; omega
  | succ m ih =>
      intro y i c hy hi hc
      simp only [clearRows]
      by_cases hym : y = m
      · subst hym
        unfold fillZero
        rw [if_pos (by omega)]
      · rcases fillZero_cases (((ll.y + m) * W + ll.x) * 4) (ll.width * 4)
            (clearRows ll W tex m) (((ll.y + y) * W + ll.x) * 4 + 4 * i + c) with h | h
        · exact h
        · rw [h]; exact ih y i c (by omega) hi hc

/-- The fold of `clear_last` over the recorded list writes 0 or leaves a
byte alone. -/
theorem clearFold_cases (W : Nat) (image : List LastLayer) :
    ∀ tex p,
      List.foldl (fun t ll => clearLayer ll W t) tex image p = 0
      ∨ List.foldl (fun t ll => clearLayer ll W t) tex image p = tex p := by
  induction image with
  | nil => intro tex p; exact Or.inr rfl
  | cons a rest ih =>
      intro tex p
      simp only [List.foldl_cons]
      rcases ih (clearLayer a W tex) p with h | h
      · exact Or.inl h
      · rw [h]
        exact clearRows_cases a W tex a.height p

/-- Every byte inside the rectangle of a recorded layer belonging to the
list is zero after the whole clear phase. -/
theorem clearFold_in (W : Nat) (image : List LastLayer) :
    ∀ tex (ll : LastLayer), ll ∈ image →
      ∀ y i c, y < ll.height → i < ll.width → c < 4 →
        List.foldl (fun t l2 => clearLayer l2 W t) tex image
            (((ll.y + y) * W + ll.x) * 4 + 4 * i + c) = 0 := by
  induction image with
  | nil => intro tex ll h; cases h
  | cons a rest ih =>
      intro tex ll hmem y i c hy hi hc
      simp only [List.foldl_cons]
      rcases List.mem_cons.1 hmem with h | h
      · subst h
        rcases clearFold_cases W rest (clearLayer ll W tex)
            (((ll.y + y) * W + ll.x) * 4 + 4 * i + c) with h0 | h0
        · exact h0
        · rw [h0]
          exact clearRows_in ll W tex ll.height y i c hy hi hc
      · exact ih (clearLayer a W tex) ll h y i c hy hi hc

/-- `render` never writes the track slot. -/
theorem render_track (st : AssData) (tex : MappedTexture) (engine : EngineResult) :
    (render st tex engine).1.track = st.track := by
  unfold render
  split
  · rfl
  · rcases engine.image with _ | layers <;> rfl

/-- `render` never writes the time cursor. -/
theorem render_cur_time (st : AssData) (tex : MappedTexture) (engine : EngineResult) :
    (render st tex engine).1.cur_time = st.cur_time := by
  unfold render
  split
  · rfl
  · rcases engine.image with _ | layers <;> rfl

/-- `tick` never writes the track slot. -/
theorem tick_track (st : AssData) (m : Int) (tex : MappedTexture) (engine : EngineResult) :
    (tick st m tex engine).1.track = st.track := by
  unfold tick
  rcases h : st.track with _ | lt
  · exact h
  · rw [render_track]

/-- A successful `load_track` yields the state with the new track
installed and the cursor zeroed; this is also the state of `self` after
the call. -/
theorem load_track_ok (st : AssData) (file : Except LoadError (List Int)) (etr : Option Nat)
    (st2 : AssData) (h : load_track st file etr = Except.ok st2) :
    st2.cur_time = 0 ∧ (∃ lt, st2.track = Option.some lt)
      ∧ load_track_state st file etr = st2 := by
  rcases file with e | ends
  · exact absurd h (by simp [load_track, load_file])
  · rcases etr with _ | tr
    · exact absurd h (by simp [load_track, load_file])
    · have h2 := h
      simp only [load_track, load_file] at h2
      injection h2 with h3
      subst h3
      refine ⟨rfl, ⟨_, rfl⟩, ?_⟩
      unfold load_track_state
      rw [h]

/-- A failed `load_track` leaves the state of `self` unchanged. -/
theorem load_track_err (st : AssData) (file : Except LoadError (List Int)) (etr : Option Nat)
    (e : LoadError) (h : load_track st file etr = Except.error e) :
    load_track_state st file etr = st := by
  unfold load_track_state
  rw [h]

/-- `load_track` either succeeds or fails; in terms of the observed state
of `self`, it is either unchanged or has the new track and a zero cursor. -/
theorem load_track_state_cases (st : AssData) (file : Except LoadError (List Int))
    (etr : Option Nat) :
    load_track_state st file etr = st
    ∨ ((load_track_state st file etr).cur_time = 0
        ∧ ∃ lt, (load_track_state st file etr).track = Option.some lt) := by
  rcases h : load_track st file etr with e | st2
  · exact Or.inl (load_track_err st file etr e h)
  · obtain ⟨h1, ⟨lt, h2⟩, h3⟩ := load_track_ok st file etr st2 h
    rw [h3]
    exact Or.inr ⟨h1, lt, h2⟩

/-- Folding `max_step` from a defined accumulator yields the maximum of
the accumulator and the traversed elements. -/
theorem max_step_fold (ends : List Int) :
    ∀ m, ∃ r, List.foldl max_step (Option.some m) ends = Option.some r
      ∧ (r = m ∨ r ∈ ends) ∧ m ≤ r ∧ ∀ e ∈ ends, e ≤ r := by
  induction ends with
  | nil => intro m; exact ⟨m, rfl, Or.inl rfl, le_refl m, by simp⟩
  | cons a rest ih =>
      intro m
      by_cases hma : m > a
      · obtain ⟨r, h1, h2, h3, h4⟩ := ih m
        refine ⟨r, ?_, ?_, h3, ?_⟩
        · rw [List.foldl_cons, show max_step (Option.some m) a = Option.some m by
            simp only [max_step]; rw [if_pos hma]]
          exact h1
        · rcases h2 with h | h
          · exact Or.inl h
          · exact Or.inr (List.mem_cons_of_mem a h)
        · intro e he
          rcases List.mem_cons.1 he with h | h
          · omega
          · exact h4 e h
      · obtain ⟨r, h1, h2, h3, h4⟩ := ih a
        refine ⟨r, ?_, ?_, by omega, ?_⟩
        · rw [List.foldl_cons, show max_step (Option.some m) a = Option.some a by
            simp only [max_step]; rw [if_neg hma]]
          exact h1
        · rcases h2 with h | h
          · exact Or.inr (h ▸ List.mem_cons_self a rest)
          · exact Or.inr (List.mem_cons_of_mem a h)
        · intro e he
          rcases List.mem_cons.1 he with h | h
          · omega
          · exact h4 e h

/-- On a nonempty list, `max_end` returns an element that bounds every
element. -/
theorem max_end_nonempty (a : Int) (rest : List Int) :
    ∃ r, max_end (a :: rest) = Option.some r
      ∧ r ∈ a :: rest ∧ ∀ e ∈ a :: rest, e ≤ r := by
  obtain ⟨r, h1, h2, h3, h4⟩ := max_step_fold rest a
  refine ⟨r, ?_, ?_, ?_⟩
  · rw [max_end, List.foldl_cons, show max_step Option.none a = Option.some a from rfl]
    exact h1
  · rcases h2 with h | h
    · exact h ▸ List.mem_cons_self a rest
    · exact List.mem_cons_of_mem a h
  · intro e he
    rcases List.mem_cons.1 he with h | h
    · omega
    · exact h4 e h

/-- The cursor after a `tick`: unchanged without a track, otherwise the
wrapped sum of the old cursor and the delta. -/
theorem tick_cur_time (st : AssData) (m : Int) (tex : MappedTexture) (engine : EngineResult) :
    (tick st m tex engine).1.cur_time
      = match st.track with
        | Option.none => st.cur_time
        | Option.some _ => wrap64 (st.cur_time + m) := by
  unfold tick
  rcases st.track with _ | lt
  · rfl
  · rw [render_cur_time]

/-- Claim C1: for every destination byte touched by `draw_layer`, with
coverage byte `k`, source channel `Cs` (a channel of the alpha-inverted
color vector) and current destination channel `Cd`, the new destination
byte equals `(Cd * (255 - k) + Cs * k) / 255` with truncating integer
division, independently per channel; `k = 0` leaves the byte unchanged
and `k = 255` replaces it with the source channel. -/
theorem draw_layer_blend_law (l : Layer) (W : Nat) (tex : MappedTexture)
    (hW : l.x + l.width ≤ W)
    (hbm : ∀ i2, l.bitmap i2 ≤ 255) (hdata : ∀ p, tex.data p ≤ 255)
    (y i c : Nat) (hy : y < l.height) (hi : i < l.width) (hc : c < 4) :
    (draw_layer l W tex).data (((y + l.y) * W + l.x) * 4 + 4 * i + c)
        = (tex.data (((y + l.y) * W + l.x) * 4 + 4 * i + c)
              * (255 - l.bitmap (y * l.width + i))
           + drawColor l c * l.bitmap (y * l.width + i)) / 255
    ∧ (l.bitmap (y * l.width + i) = 0 →
        (draw_layer l W tex).data (((y + l.y) * W + l.x) * 4 + 4 * i + c)
          = tex.data (((y + l.y) * W + l.x) * 4 + 4 * i + c))
    ∧ (l.bitmap (y * l.width + i) = 255 →
        (draw_layer l W tex).data (((y + l.y) * W + l.x) * 4 + 4 * i + c)
          = drawColor l c) := by
  have hmain : (draw_layer l W tex).data (((y + l.y) * W + l.x) * 4 + 4 * i + c)
      = blendByte (tex.data (((y + l.y) * W + l.x) * 4 + 4 * i + c)) (drawColor l c)
          (l.bitmap (y * l.width + i)) :=
    drawRows_at l W tex.data hW l.height y i c hy hi hc
  refine ⟨?_, ?_, ?_⟩
  · rw [hmain]
    exact blendByte_eq _ _ _ (hdata _) (drawColor_le l c) (hbm _)
  · intro hk
    rw [hmain, hk]
    exact blendByte_zero _ _ (hdata _) (drawColor_le l c)
  · intro hk
    rw [hmain, hk]
    exact blendByte_full _ _ (hdata _) (drawColor_le l c)

/-- Witness for claim C1: at a concrete fully-covered layer on a zero
texture, the touched byte becomes the source channel. -/
theorem draw_layer_blend_law_witness :
    (draw_layer cLayer 1920 cTex).data (((0 + cLayer.y) * 1920 + cLayer.x) * 4 + 4 * 0 + 0)
      = drawColor cLayer 0 :=
  (draw_layer_blend_law cLayer 1920 cTex (by decide)
      (fun _ => le_refl 255) (fun _ => Nat.zero_le 255)
      0 0 0 (by decide) (by decide) (by decide)).2.2 rfl

/-- Claim C2: `draw_layer` inverts the stored alpha byte of the layer
color (channel 3 of the color vector becomes `255 - stored_alpha`) before
any blending, and at every touched pixel the blended alpha byte is the
destination byte attenuated by `255 - k` plus the inverted alpha
multiplied by the coverage byte `k`. -/
theorem draw_layer_inverted_alpha (l : Layer) (W : Nat) (tex : MappedTexture)
    (hW : l.x + l.width ≤ W)
    (hbm : ∀ i2, l.bitmap i2 ≤ 255) (hdata : ∀ p, tex.data p ≤ 255)
    (y i : Nat) (hy : y < l.height) (hi : i < l.width) :
    drawColor l 3 = 255 - l.color % 256
    ∧ (draw_layer l W tex).data (((y + l.y) * W + l.x) * 4 + 4 * i + 3)
        = (tex.data (((y + l.y) * W + l.x) * 4 + 4 * i + 3)
              * (255 - l.bitmap (y * l.width + i))
           + (255 - l.color % 256) * l.bitmap (y * l.width + i)) / 255 := by
  have hmain : (draw_layer l W tex).data (((y + l.y) * W + l.x) * 4 + 4 * i + 3)
      = blendByte (tex.data (((y + l.y) * W + l.x) * 4 + 4 * i + 3)) (drawColor l 3)
          (l.bitmap (y * l.width + i)) :=
    drawRows_at l W tex.data hW l.height y i 3 hy hi (by omega)
  have hcol : drawColor l 3 = 255 - l.color % 256 := rfl
  refine ⟨hcol, ?_⟩
  rw [hmain, blendByte_eq _ _ _ (hdata _) (drawColor_le l 3) (hbm _), hcol]

/-- Witness for claim C2 at the concrete layer: stored alpha `0x44` is
inverted to 187 and written through full coverage. -/
theorem draw_layer_inverted_alpha_witness :
    drawColor cLayer 3 = 255 - cLayer.color % 256 :=
  (draw_layer_inverted_alpha cLayer 1920 cTex (by decide)
      (fun _ => le_refl 255) (fun _ => Nat.zero_le 255)
      0 0 (by decide) (by decide)).1

/-- Claim C3: when the engine reports a change, the resulting texture is
the fold of `draw_layer` over the returned layers applied to the texture
with every previously recorded rectangle cleared (so the clear phase
precedes every draw), every byte of every previously recorded rectangle
is zero after the clear phase, and the recorded list is replaced in its
entirety by the rectangles of the returned layers (empty when the engine
returns zero layers); the track and the cursor are untouched. -/
theorem render_changed_spec (st : AssData) (tex : MappedTexture) (engine : EngineResult)
    (h : ¬ engine.change = Change.None) :
    (render st tex engine).2
        = (engine.image.getD []).foldl (fun t l => draw_layer l 1920 t)
            (clear_last st.last_image tex)
    ∧ (render st tex engine).1.last_image = (engine.image.getD []).map LastLayer.from_layer
    ∧ (render st tex engine).1.track = st.track
    ∧ (render st tex engine).1.cur_time = st.cur_time
    ∧ (∀ ll ∈ st.last_image, ∀ y i c, y < ll.height → i < ll.width → c < 4 →
        (clear_last st.last_image tex).data
            (((ll.y + y) * tex.width + ll.x) * 4 + 4 * i + c) = 0) := by
  refine ⟨?_, ?_, render_track st tex engine, render_cur_time st tex engine, ?_⟩
  · unfold render
    rw [if_neg h]
    rcases engine.image with _ | layers
    · rfl
    · rfl
  · unfold render
    rw [if_neg h]
    rcases engine.image with _ | layers
    · rfl
    · rfl
  · intro ll hmem y i c hy hi hc
    exact clearFold_in tex.width st.last_image tex.data ll hmem y i c hy hi hc

/-- Witness for claim C3: a change with one concrete layer replaces the
recorded list and the old 1x1 rectangle is zeroed by the clear phase. -/
theorem render_changed_spec_witness :
    (render cStClear cTex cEngineChanged).1.last_image = [LastLayer.from_layer cLayer]
    ∧ (clear_last cStClear.last_image cTex).data 0 = 0 := by
  have h := render_changed_spec cStClear cTex cEngineChanged (by decide)
  exact ⟨h.2.1, h.2.2.2.2 ⟨1, 1, 0, 0⟩ (by decide) 0 0 0 (by decide) (by decide) (by decide)⟩

/-- Claim C4: when the engine reports no change, `render` returns
immediately, leaving the destination surface bytes and the whole state
(including the recorded dirty-region list) unchanged. -/
theorem render_unchanged_noop (st : AssData) (tex : MappedTexture) (engine : EngineResult)
    (h : engine.change = Change.None) :
    render st tex engine = (st, tex) := by
  unfold render
  rw [if_pos h]

/-- Witness for claim C4 at a concrete state and texture. -/
theorem render_unchanged_noop_witness :
    render cStClear cTex cEngineNone = (cStClear, cTex) :=
  render_unchanged_noop cStClear cTex cEngineNone rfl

/-- Counterexample to claim C5 as stated: with a track loaded and the
cursor at 5, a `tick` with delta -5 (negative deltas are accepted) brings
the cursor to 0 although no new track replaced the old one, so
`load_track` is not the only operation that sets the cursor to 0. -/
theorem tick_zeroes_cursor_counterexample :
    cTrackState.cur_time = 5
    ∧ (tick cTrackState (-5) cTex cEngineNone).1.cur_time = 0
    ∧ (tick cTrackState (-5) cTex cEngineNone).1.track = cTrackState.track := by
  refine ⟨rfl, by decide, by decide⟩

/-- Claim C5 (amended): after every successful `load_track` the cursor is
0 regardless of its prior value; a failed `load_track` leaves the cursor
unchanged; and `tick` leaves the cursor unchanged when no track is loaded
and otherwise sets it to the wrapped sum of cursor and delta — so besides
a successful `load_track`, only a `tick` whose wrapped sum is exactly 0
brings the cursor to 0. -/
theorem cursor_reset_characterization :
    (∀ st file etr st2, load_track st file etr = Except.ok st2 → current_time st2 = 0)
    ∧ (∀ st file etr e, load_track st file etr = Except.error e →
        current_time (load_track_state st file etr) = current_time st)
    ∧ (∀ st m tex engine, st.track = Option.none →
        current_time (tick st m tex engine).1 = current_time st)
    ∧ (∀ st m tex engine, st.track ≠ Option.none →
        current_time (tick st m tex engine).1 = wrap64 (current_time st + m)) := by
  refine ⟨?_, ?_, ?_, ?_⟩
  · intro st file etr st2 h
    exact (load_track_ok st file etr st2 h).1
  · intro st file etr e h
    rw [load_track_err st file etr e h]
  · intro st m tex engine h
    unfold current_time
    rw [tick_cur_time, h]
  · intro st m tex engine h
    rcases htr : st.track with _ | lt
    · exact absurd htr h
    · unfold current_time
      rw [tick_cur_time, htr]

/-- Witness for the amended claim C5: a loaded `tick` moves the cursor to
the wrapped sum, a successful load zeroes it. -/
theorem cursor_reset_characterization_witness :
    current_time (tick cTrackState 3 cTex cEngineNone).1 = wrap64 (current_time cTrackState + 3)
    ∧ current_time
        { cTrackState with track := Option.some ⟨7, 100⟩, cur_time := 0 } = 0 :=
  ⟨cursor_reset_characterization.2.2.2 cTrackState 3 cTex cEngineNone (by decide),
   cursor_reset_characterization.1 cTrackState (Except.ok [100]) (Option.some 7) _ rfl⟩

/-- Claim C6: a `load_track` call fails exactly when the file cannot be
read or parsed or the engine rejects the track bytes; every failure
returns the error and leaves the state of `self` (previous track and
cursor included) unchanged. -/
theorem load_track_failure (st : AssData) (file : Except LoadError (List Int))
    (etr : Option Nat) :
    (∀ e, load_track st file etr = Except.error e → load_track_state st file etr = st)
    ∧ ((∃ e, load_track st file etr = Except.error e)
        ↔ (∃ e, file = Except.error e) ∨ etr = Option.none) := by
  constructor
  · intro e h
    exact load_track_err st file etr e h
  · rcases file with e | ends
    · simp [load_track, load_file]
    · rcases etr with _ | tr
      · simp [load_track, load_file]
      · simp [load_track, load_file]

/-- Witness for claim C6: an IO failure is returned and the concrete
state is unchanged. -/
theorem load_track_failure_witness :
    load_track_state cTrackState (Except.error LoadError.IoFailure) (Option.some 7)
      = cTrackState :=
  (load_track_failure cTrackState (Except.error LoadError.IoFailure) (Option.some 7)).1
    LoadError.IoFailure rfl

/-- Claim C7: for a successfully parsed document, the computed duration
is the maximum end timestamp over all entries, and 0 when there are no
entries. -/
theorem load_file_duration (ends : List Int) :
    load_file (Except.ok ends) = Except.ok ((max_end ends).getD 0)
    ∧ (ends = [] → (max_end ends).getD 0 = 0)
    ∧ (ends ≠ [] →
        (max_end ends).getD 0 ∈ ends ∧ ∀ e ∈ ends, e ≤ (max_end ends).getD 0) := by
  refine ⟨rfl, ?_, ?_⟩
  · intro h
    subst h
    rfl
  · intro h
    rcases ends with _ | ⟨a, rest⟩
    · exact absurd rfl h
    · obtain ⟨r, h1, h2, h3⟩ := max_end_nonempty a rest
      rw [h1]
      exact ⟨h2, h3⟩

/-- Witness for claim C7: end timestamps {500, 1200, 900} give duration
1200, which is an element bounding the rest. -/
theorem load_file_duration_witness :
    (max_end [500, 1200, 900]).getD 0 = 1200
    ∧ (max_end ([500, 1200, 900] : List Int)).getD 0 ∈ ([500, 1200, 900] : List Int) :=
  ⟨by decide, ((load_file_duration [500, 1200, 900]).2.2 (by decide)).1⟩

/-- Claim C8: `ended()` is true exactly when the current time has reached
the current duration: false strictly below it, true at and above
equality. -/
theorem ended_iff (st : AssData) :
    (ended st = true ↔ current_len st ≤ current_time st)
    ∧ (current_time st < current_len st → ended st = false)
    ∧ (current_time st = current_len st → ended st = true) := by
  refine ⟨?_, ?_, ?_⟩
  · simp [ended, current_time]
  · intro h
    simp only [ended, current_time] at *
    simp only [decide_eq_false_iff_not]
    omega
  · intro h
    simp only [ended, current_time] at *
    simp only [decide_eq_true_eq]
    omega

/-- Witness for claim C8: at cursor 5 and duration 1000, `ended` is
false. -/
theorem ended_iff_witness : ended cTrackState = false :=
  (ended_iff cTrackState).2.1 (by decide)

/-- Claim C9: a `tick` while no track is loaded is a no-op: the state
(cursor included) and the destination surface are returned exactly as
they were, so repeated such calls are idempotent. -/
theorem tick_unloaded_noop (st : AssData) (m : Int) (tex : MappedTexture)
    (engine : EngineResult) (h : st.track = Option.none) :
    tick st m tex engine = (st, tex) := by
  unfold tick
  rw [h]

/-- Witness for claim C9 on the freshly constructed state. -/
theorem tick_unloaded_noop_witness :
    tick AssData.new 100 cTex cEngineNone = (AssData.new, cTex) :=
  tick_unloaded_noop AssData.new 100 cTex cEngineNone rfl

/-- Claim C10: in every reachable state without a loaded track the cursor
is 0, the duration is 0 and `ended` is true; and no operation removes a
loaded track, so `loaded` stays true across every step once it is true. -/
theorem unloaded_state_invariant :
    (∀ st, Reachable st → loaded st = false →
        current_time st = 0 ∧ current_len st = 0 ∧ ended st = true)
    ∧ (∀ st st2, Step st st2 → loaded st = true → loaded st2 = true) := by
  have hcur : ∀ st, Reachable st → st.track = Option.none → st.cur_time = 0 := by
    intro st h
    induction h with
    | init => intro _; rfl
    | @step st1 st2 hr hs ih =>
        intro h2
        cases hs with
        | tick m tex engine =>
            have hnone : st1.track = Option.none := by
              rw [← tick_track st1 m tex engine]
              exact h2
            have heq : tick st1 m tex engine = (st1, tex) := by
              unfold tick
              rw [hnone]
            rw [heq]
            exact ih hnone
        | load file etr =>
            rcases load_track_state_cases st1 file etr with h3 | ⟨hct, lt, htr⟩
            · rw [h3]
              rw [h3] at h2
              exact ih h2
            · rw [htr] at h2
              cases h2
  refine ⟨?_, ?_⟩
  · intro st hr hl
    have hn : st.track = Option.none := by
      rcases h : st.track with _ | lt
      · rfl
      · unfold loaded at hl
        rw [h] at hl
        cases hl
    have hc := hcur st hr hn
    have hlen : current_len st = 0 := by
      unfold current_len
      rw [hn]
      rfl
    refine ⟨hc, hlen, ?_⟩
    unfold ended
    rw [hlen]
    unfold current_time at hc
    rw [hc]
    decide
  · intro st st2 hs hl
    cases hs with
    | tick m tex engine =>
        unfold loaded at *
        rw [tick_track]
        exact hl
    | load file etr =>
        rcases load_track_state_cases st file etr with h3 | ⟨hct, lt, htr⟩
        · rw [h3]
          exact hl
        · unfold loaded
          rw [htr]
          rfl

/-- Witness for claim C10: the initial state satisfies the unloaded
invariant, and a concrete `tick` step preserves `loaded`. -/
theorem unloaded_state_invariant_witness :
    (current_time AssData.new = 0 ∧ current_len AssData.new = 0 ∧ ended AssData.new = true)
    ∧ loaded (tick cTrackState 1 cTex cEngineNone).1 = true :=
  ⟨unloaded_state_invariant.1 AssData.new Reachable.init rfl,
   unloaded_state_invariant.2 cTrackState (tick cTrackState 1 cTex cEngineNone).1
     (Step.tick cTrackState 1 cTex cEngineNone) rfl⟩

end ObsSubtitle
